import Mathlib

/-!
Verification development for the bioimage collection scripts.

The definitions below are a shallow embedding of the two scripts
`scripts/update_external_resources.py` and `scripts/generate_collection_rdf.py`:
Python dicts holding the fields the scripts actually touch become Lean
structures (a field read with `.get` / an optional key becomes `Option`),
fallible paths (`assert`, `raise ValueError`) become `Except`, and the
file written to `resource_output_path` is the `written` payload of the
merge outcome.  Timestamps are compared as strings throughout the source
(`str(created)`), so `created` is a `String` here as well.
-/

namespace BioCollection

/-! ### String ordering

Python compares strings by code points, lexicographically; the scripts use
this both for `created` timestamps (`str(datetime)` values) and for sorting
URL strings and resource ids.  `strListLeB` is that comparison, written
structurally so that the kernel can evaluate it on concrete inputs. -/

/-- Lexicographic code-point comparison of char lists (Python string `<=`). -/
def strListLeB : List Char → List Char → Bool
  | [], _ => true
  | _ :: _, [] => false
  | a :: as, b :: bs =>
    if a.toNat < b.toNat then true
    else if b.toNat < a.toNat then false
    else strListLeB as bs

/-- Python string `<=` (code-point lexicographic). -/
def pyLe (a b : String) : Bool := strListLeB a.data b.data

/-- Python string `<` (total order, so `a < b ↔ ¬ b ≤ a`). -/
def pyLt (a b : String) : Bool := !(pyLe b a)

theorem char_toNat_inj {a b : Char} (h : a.toNat = b.toNat) : a = b := by
  have := congrArg Char.ofNat h
  rwa [Char.ofNat_toNat, Char.ofNat_toNat] at this

theorem strListLeB_refl : ∀ l, strListLeB l l = true := by
  intro l
  induction l with
  | nil => rfl
  | cons a as ih => simp [strListLeB, ih]

theorem strListLeB_total : ∀ l1 l2, strListLeB l1 l2 = true ∨ strListLeB l2 l1 = true := by
  intro l1
  induction l1 with
  | nil => intro l2; left; rfl
  | cons a as ih =>
    intro l2
    cases l2 with
    | nil => right; rfl
    | cons b bs =>
      rcases Nat.lt_trichotomy a.toNat b.toNat with h | h | h
      · left; simp [strListLeB, h]
      · have h' : ¬ a.toNat < b.toNat := by omega
        have h'' : ¬ b.toNat < a.toNat := by omega
        rcases ih bs with hle | hle
        · left; simp [strListLeB, h', h'', hle]
        · right; simp [strListLeB, h', h'', hle]
      · right; simp [strListLeB, h]

theorem strListLeB_trans : ∀ l1 l2 l3, strListLeB l1 l2 = true →
    strListLeB l2 l3 = true → strListLeB l1 l3 = true := by
  intro l1
  induction l1 with
  | nil => intro l2 l3 _ _; rfl
  | cons a as ih =>
    intro l2 l3 h12 h23
    cases l2 with
    | nil => simp [strListLeB] at h12
    | cons b bs =>
      cases l3 with
      | nil => simp [strListLeB] at h23
      | cons c cs =>
        simp only [strListLeB] at h12 h23 ⊢
        by_cases hab : a.toNat < b.toNat <;> by_cases hbc : b.toNat < c.toNat
        · simp [show a.toNat < c.toNat by omega]
        · simp only [hbc, if_false] at h23
          by_cases hcb : c.toNat < b.toNat
          · simp [hcb] at h23
          · have hbc' : b.toNat = c.toNat := by omega
            simp [show a.toNat < c.toNat by omega]
        · simp only [hab, if_false] at h12
          by_cases hba : b.toNat < a.toNat
          · simp [hba] at h12
          · have hab' : a.toNat = b.toNat := by omega
            simp [show a.toNat < c.toNat by omega]
        · simp only [hab, if_false] at h12
          simp only [hbc, if_false] at h23
          by_cases hba : b.toNat < a.toNat
          · simp [hba] at h12
          · by_cases hcb : c.toNat < b.toNat
            · simp [hcb] at h23
            · simp only [hba, if_false] at h12
              simp only [hcb, if_false] at h23
              have hac : ¬ a.toNat < c.toNat := by omega
              have hca : ¬ c.toNat < a.toNat := by omega
              simp only [hac, if_false, hca]
              exact ih bs cs h12 h23

theorem strListLeB_antisymm : ∀ l1 l2, strListLeB l1 l2 = true →
    strListLeB l2 l1 = true → l1 = l2 := by
  intro l1
  induction l1 with
  | nil =>
    intro l2 _ h21
    cases l2 with
    | nil => rfl
    | cons b bs => simp [strListLeB] at h21
  | cons a as ih =>
    intro l2 h12 h21
    cases l2 with
    | nil => simp [strListLeB] at h12
    | cons b bs =>
      simp only [strListLeB] at h12 h21
      by_cases hab : a.toNat < b.toNat
      · rw [if_neg (by omega), if_pos hab] at h21
        exact absurd h21 (by simp)
      · by_cases hba : b.toNat < a.toNat
        · rw [if_neg hab, if_pos hba] at h12
          exact absurd h12 (by simp)
        · simp only [hab, if_false, hba] at h12 h21
          have : a = b := char_toNat_inj (by omega)
          rw [this, ih bs h12 h21]

theorem pyLe_refl (a : String) : pyLe a a = true := strListLeB_refl a.data

theorem pyLe_total (a b : String) : pyLe a b = true ∨ pyLe b a = true :=
  strListLeB_total a.data b.data

theorem pyLe_trans {a b c : String} (h1 : pyLe a b = true) (h2 : pyLe b c = true) :
    pyLe a c = true :=
  strListLeB_trans a.data b.data c.data h1 h2

theorem pyLe_antisymm {a b : String} (h1 : pyLe a b = true) (h2 : pyLe b a = true) :
    a = b :=
  congrArg String.mk (strListLeB_antisymm a.data b.data h1 h2)

/-- One version record of a resource, holding exactly the fields
`update_resource` reads or writes: `version_id`, `rdf_source` (an optional
key, read with `.get`), `created` (compared as a string), and `owners`
(an optional key, hoisted to the resource). -/
structure Version where
  version_id : String
  rdf_source : Option String
  created : String
  owners : Option (List String)
deriving DecidableEq

/-- A resource record as read from / written to `resource.yaml`.
`doi : Option (Option String)` distinguishes a missing `doi` key (outer
`none`) from a key holding `None` (inner `none`), since the source deletes
the key only when it is present and falsy.  `rtype` embeds the Python key
`type`. -/
structure Resource where
  status : String
  versions : List Version
  id : String
  doi : Option (Option String)
  rtype : String
  owners : Option (List String)
deriving DecidableEq

/-- Descending-`created` comparison used by
`resource["versions"].sort(key=lambda v: v["created"], reverse=True)`. -/
def createdGE (a b : Version) : Prop := pyLe b.created a.created = true

instance : DecidableRel createdGE := fun a b =>
  inferInstanceAs (Decidable (pyLe b.created a.created = true))

instance : IsTotal Version createdGE :=
  ⟨fun a b => (pyLe_total b.created a.created).imp id id⟩

instance : IsTrans Version createdGE :=
  ⟨fun _ _ _ h h' => pyLe_trans h' h⟩

/-- Outcome of `update_resource`: the string returns `"blocked"` /
`"old_hit"`, or the merged resource.  `written` also carries the
`new_version` dict as it is after the merge (the source mutates it
in place when hoisting `owners`). -/
inductive MergeOutcome
  | blocked
  | oldHit
  | written (resource : Resource) (newVersion : Version)
deriving DecidableEq

/-- The two fatal paths of `update_resource`: `raise ValueError(status)`
for a status outside {accepted, pending, blocked}, and the `assert` that
an accepted/pending resource has at least one version. -/
inductive MergeError
  | invalidStatus (s : String)
  | emptyVersions
deriving DecidableEq

/-- The `new_version` dict as it looks after the merge: lines 63-65 delete
its `owners` key when present. -/
def stripNew (nv : Version) : Version :=
  match nv.owners with
  | some _ => { nv with owners := none }
  | none => nv

/-- Lines 63-64: `resource["owners"] = new_version["owners"]` when the key
is present on the new version. -/
def hoistOwners (nv : Version) (r : Resource) : Resource :=
  match nv.owners with
  | some ow => { r with owners := some ow }
  | none => r

/-- Lines 67-68: `if "doi" in resource and not resource["doi"]: del
resource["doi"]` (a present key holding `None` or `""` is removed). -/
def dropFalsyDoi (r : Resource) : Resource :=
  match r.doi with
  | some none => { r with doi := none }
  | some (some s) => if s = "" then { r with doi := none } else r
  | none => r

/-- The duplicate scan of lines 42-47: some known version has the new
version's `version_id` (passed separately by the caller) and the same
`rdf_source` (compared via `.get`, i.e. missing keys compare equal). -/
def dupHit (versions : List Version) (version_id : String) (nv : Version) : Bool :=
  versions.any (fun kv =>
    kv.version_id == version_id && nv.rdf_source == kv.rdf_source)

/-- Embedding of `update_resource` (src/scripts/update_external_resources.py,
lines 16-73).  `existing` is the resource record found at `resource_path`
(or the already-written output), `none` when no such file exists.

The source inserts `new_version` at index 0 and then stable-sorts by
`created` descending; `List.insertionSort createdGE` is that stable sort.
The `owners` hoist (lines 63-65) runs after the list is built, but the list
holds the very same dict object as `new_version`, so deleting the key from
`new_version` also strips it inside the list; the embedding therefore
strips the copy that goes into the list up front (`stripNew` shares
`version_id`, `rdf_source` and `created` with `new_version`, so the sort
and every later duplicate scan are unaffected). -/
def update_resource (existing : Option Resource) (resource_id : String)
    (resource_type : String) (resource_doi : Option String)
    (version_id : String) (new_version : Version) :
    Except MergeError MergeOutcome :=
  match existing with
  | some resource =>
    if resource.status = "blocked" then .ok .blocked
    else if resource.status = "accepted" ∨ resource.status = "pending" then
      if resource.versions.isEmpty then .error .emptyVersions
      else if dupHit resource.versions version_id new_version then
        .ok .oldHit
      else
        .ok (.written (dropFalsyDoi (hoistOwners new_version { resource with
          versions := List.insertionSort createdGE (stripNew new_version :: resource.versions),
          rtype := resource_type })) (stripNew new_version))
    else .error (.invalidStatus resource.status)
  | none =>
    .ok (.written (dropFalsyDoi (hoistOwners new_version
      { status := "accepted", versions := [stripNew new_version], id := resource_id,
        doi := some resource_doi, rtype := resource_type, owners := none }))
      (stripNew new_version))

/-- One call of `update_resource` as issued by `update_from_zenodo`
(lines 148-156): the `version_id` argument is the new version's own id. -/
structure MergeInput where
  resource_type : String
  resource_doi : Option String
  new_version : Version
deriving DecidableEq

/-- State transition of the output file `resource_output_path` across one
merge call: only a `written` outcome replaces the stored record
(`yaml.dump`, line 72); `blocked`, `old_hit` and the fatal paths leave it
untouched. -/
def mergeStep (resource_id : String) (st : Option Resource) (inp : MergeInput) :
    Option Resource :=
  match update_resource st resource_id inp.resource_type inp.resource_doi
      inp.new_version.version_id inp.new_version with
  | .ok (.written r _) => some r
  | _ => st

/-- A sequence of merge calls against one resource, starting from the
record found on disk (`none` when the resource does not yet exist). -/
def mergeSeq (resource_id : String) (st : Option Resource)
    (inputs : List MergeInput) : Option Resource :=
  inputs.foldl (mergeStep resource_id) st

/-- Two versions hit the duplicate check iff `version_id` and `rdf_source`
both match (lines 42-47). -/
def dupKey (a b : Version) : Prop :=
  a.version_id = b.version_id ∧ a.rdf_source = b.rdf_source

instance : DecidableRel dupKey := fun a b =>
  inferInstanceAs (Decidable (a.version_id = b.version_id ∧ a.rdf_source = b.rdf_source))

/-- The invariant claimed for version lists: sorted by `created`
descending, and no two entries share both `version_id` and `rdf_source`. -/
def versionsInvariant (vs : List Version) : Prop :=
  vs.Sorted createdGE ∧ vs.Pairwise (fun a b => ¬ dupKey a b)

instance (vs : List Version) : Decidable (versionsInvariant vs) :=
  inferInstanceAs (Decidable (_ ∧ _))

@[simp] theorem stripNew_version_id (nv : Version) :
    (stripNew nv).version_id = nv.version_id := by
  unfold stripNew; cases nv.owners <;> rfl

@[simp] theorem stripNew_rdf_source (nv : Version) :
    (stripNew nv).rdf_source = nv.rdf_source := by
  unfold stripNew; cases nv.owners <;> rfl

@[simp] theorem stripNew_created (nv : Version) :
    (stripNew nv).created = nv.created := by
  unfold stripNew; cases nv.owners <;> rfl

@[simp] theorem hoistOwners_versions (nv : Version) (r : Resource) :
    (hoistOwners nv r).versions = r.versions := by
  unfold hoistOwners; cases nv.owners <;> rfl

@[simp] theorem dropFalsyDoi_versions (r : Resource) :
    (dropFalsyDoi r).versions = r.versions := by
  unfold dropFalsyDoi
  rcases r.doi with _ | (_ | s)
  · rfl
  · rfl
  · by_cases h : s = "" <;> simp [h]

@[simp] theorem dropFalsyDoi_owners (r : Resource) :
    (dropFalsyDoi r).owners = r.owners := by
  unfold dropFalsyDoi
  rcases r.doi with _ | (_ | s)
  · rfl
  · rfl
  · by_cases h : s = "" <;> simp [h]

theorem dupKey_symm {a b : Version} (h : ¬ dupKey a b) : ¬ dupKey b a :=
  fun hd => h ⟨hd.1.symm, hd.2.symm⟩

/-- A failed duplicate scan means no known version shares both keys with
the new version. -/
theorem dupHit_false {versions : List Version} {nv : Version}
    (h : dupHit versions nv.version_id nv = false) :
    ∀ kv ∈ versions, ¬ dupKey (stripNew nv) kv := by
  intro kv hkv hd
  rw [dupHit, List.any_eq_false] at h
  have := h kv hkv
  simp only [Bool.and_eq_true, beq_iff_eq, not_and] at this
  rcases hd with ⟨h1, h2⟩
  simp only [stripNew_version_id, stripNew_rdf_source] at h1 h2
  exact this h1.symm h2

/-- A `written` outcome of `update_resource` always carries the stripped
new version, and its version list is either a sorted insertion into the
existing (non-duplicate) list or the singleton of a fresh resource.  It
also records the merged resource's `owners`. -/
theorem update_resource_written {existing : Option Resource} {rid rtype : String}
    {rdoi : Option String} {vid : String} {nv : Version} {r : Resource} {nvOut : Version}
    (h : update_resource existing rid rtype rdoi vid nv = .ok (.written r nvOut)) :
    nvOut = stripNew nv ∧
      (∀ ow, nv.owners = some ow → r.owners = some ow) ∧
      ((∃ res, existing = some res ∧ dupHit res.versions vid nv = false ∧
          r.versions = List.insertionSort createdGE (stripNew nv :: res.versions)) ∨
        (existing = none ∧ r.versions = [stripNew nv])) := by
  cases existing with
  | none =>
    simp only [update_resource, Except.ok.injEq, MergeOutcome.written.injEq] at h
    obtain ⟨hr, hn⟩ := h
    subst hr; subst hn
    refine ⟨rfl, ?_, Or.inr ⟨rfl, by simp⟩⟩
    intro ow how
    simp [dropFalsyDoi_owners, hoistOwners, how]
  | some resource =>
    simp only [update_resource] at h
    split_ifs at h with h1 h2 h3 h4
    · simp at h
    · simp at h
    · simp only [Except.ok.injEq, MergeOutcome.written.injEq] at h
      obtain ⟨hr, hn⟩ := h
      subst hr; subst hn
      refine ⟨rfl, ?_, Or.inl ⟨resource, rfl, by simpa using h4, by
        simp [List.insertionSort]⟩⟩
      intro ow how
      simp [dropFalsyDoi_owners, hoistOwners, how]

/-- Every outcome of one merge call preserves the version-list invariant
of the stored record. -/
theorem mergeStep_invariant (rid : String) (st : Option Resource) (inp : MergeInput)
    (h : ∀ r, st = some r → versionsInvariant r.versions) :
    ∀ r', mergeStep rid st inp = some r' → versionsInvariant r'.versions := by
  intro r' h'
  unfold mergeStep at h'
  split at h'
  · next heq =>
    injection h' with h'
    subst h'
    obtain ⟨-, -, hcases⟩ := update_resource_written heq
    rcases hcases with ⟨res, hsome, hdup, hvers⟩ | ⟨-, hvers⟩
    · have hres := h res hsome
      rw [versionsInvariant, hvers]
      constructor
      · exact List.sorted_insertionSort createdGE _
      · have hperm := List.perm_insertionSort createdGE
          (stripNew inp.new_version :: res.versions)
        rw [List.Perm.pairwise_iff (fun h => dupKey_symm h) hperm, List.pairwise_cons]
        exact ⟨dupHit_false hdup, hres.2⟩
    · rw [versionsInvariant, hvers]
      exact ⟨List.sorted_singleton _, List.pairwise_singleton _ _⟩
  · exact h r' h'

/-- C1 (amended): for every sequence of merge calls into a resource,
starting from a non-existent resource or an existing accepted/pending
resource *whose version list already satisfies the invariant*, the
resulting version list is sorted by `created` descending and contains no
two entries whose `version_id` and `rdf_source` are both equal. -/
theorem c1_merge_invariant (rid : String) (st : Option Resource)
    (inputs : List MergeInput)
    (hst : ∀ r, st = some r → versionsInvariant r.versions) :
    ∀ r', mergeSeq rid st inputs = some r' → versionsInvariant r'.versions := by
  induction inputs generalizing st with
  | nil => intro r' h'; exact hst r' h'
  | cons inp rest ih =>
    intro r' h'
    exact ih (mergeStep rid st inp) (mergeStep_invariant rid st inp hst) r' h'

/-- C1 witness: a fresh resource merged once satisfies the invariant. -/
theorem c1_witness :
    versionsInvariant
      (⟨"accepted", [⟨"a", some "s", "1", none⟩], "r0", none, "model", none⟩ :
        Resource).versions :=
  c1_merge_invariant "r0" none [⟨"model", none, ⟨"a", some "s", "1", none⟩⟩]
    (fun _ h => by cases h)
    ⟨"accepted", [⟨"a", some "s", "1", none⟩], "r0", none, "model", none⟩
    (by decide)

/-- C1 counterexample: the claim as stated quantifies over arbitrary
existing accepted/pending resources.  An accepted resource whose stored
list already contains two entries with equal `(version_id, rdf_source)`
keeps them through a successful merge (the duplicate scan only compares
against the incoming version), so the resulting list violates the claimed
no-duplicate property. -/
theorem c1_counterexample :
    (⟨"accepted", [⟨"a", some "s", "2", none⟩, ⟨"a", some "s", "2", none⟩],
        "r0", none, "model", none⟩ : Resource).status = "accepted" ∧
    mergeSeq "r0"
        (some ⟨"accepted", [⟨"a", some "s", "2", none⟩, ⟨"a", some "s", "2", none⟩],
          "r0", none, "model", none⟩)
        [⟨"model", none, ⟨"b", some "t", "1", none⟩⟩] =
      some ⟨"accepted", [⟨"a", some "s", "2", none⟩, ⟨"a", some "s", "2", none⟩,
        ⟨"b", some "t", "1", none⟩], "r0", none, "model", none⟩ ∧
    ¬ versionsInvariant [⟨"a", some "s", "2", none⟩, ⟨"a", some "s", "2", none⟩,
        ⟨"b", some "t", "1", none⟩] := by
  refine ⟨rfl, by decide, by decide⟩

/-- C2: merging a version whose `(version_id, rdf_source)` pair already
occurs in an accepted/pending resource's version list returns `old_hit`
and leaves the stored record unchanged (nothing is written); re-running
the same merge is hence idempotent. -/
theorem c2_old_hit_idempotent (r : Resource) (rid rtype : String)
    (rdoi : Option String) (nv : Version)
    (hstatus : r.status = "accepted" ∨ r.status = "pending")
    (hmem : ∃ kv ∈ r.versions, kv.version_id = nv.version_id ∧
      nv.rdf_source = kv.rdf_source) :
    update_resource (some r) rid rtype rdoi nv.version_id nv = .ok .oldHit ∧
      mergeStep rid (some r) ⟨rtype, rdoi, nv⟩ = some r := by
  have hblocked : ¬ r.status = "blocked" := by
    rcases hstatus with h | h <;> simp [h]
  have hne : ¬ r.versions.isEmpty = true := by
    obtain ⟨kv, hkv, -⟩ := hmem
    rw [List.isEmpty_iff]
    intro hnil
    rw [hnil] at hkv
    cases hkv
  have hdup : dupHit r.versions nv.version_id nv = true := by
    obtain ⟨kv, hkv, h1, h2⟩ := hmem
    rw [dupHit, List.any_eq_true]
    exact ⟨kv, hkv, by simp [h1, h2]⟩
  have hmain : update_resource (some r) rid rtype rdoi nv.version_id nv = .ok .oldHit := by
    simp only [update_resource]
    rw [if_neg hblocked, if_pos hstatus, if_neg hne, if_pos hdup]
  exact ⟨hmain, by simp [mergeStep, hmain]⟩

/-- C2 witness. -/
theorem c2_witness :
    update_resource
        (some ⟨"accepted", [⟨"a", some "s", "1", none⟩], "r0", none, "model", none⟩)
        "r0" "model" none "a" ⟨"a", some "s", "9", some ["@x"]⟩ = .ok .oldHit ∧
      mergeStep "r0"
          (some ⟨"accepted", [⟨"a", some "s", "1", none⟩], "r0", none, "model", none⟩)
          ⟨"model", none, ⟨"a", some "s", "9", some ["@x"]⟩⟩ =
        some ⟨"accepted", [⟨"a", some "s", "1", none⟩], "r0", none, "model", none⟩ :=
  c2_old_hit_idempotent
    ⟨"accepted", [⟨"a", some "s", "1", none⟩], "r0", none, "model", none⟩
    "r0" "model" none ⟨"a", some "s", "9", some ["@x"]⟩
    (Or.inl rfl)
    ⟨⟨"a", some "s", "1", none⟩, by decide, rfl, rfl⟩

/-- C3: a resource whose status is `blocked` rejects every merge attempt,
whatever the new version is, and nothing is mutated or written. -/
theorem c3_blocked_rejects (r : Resource) (rid rtype : String)
    (rdoi : Option String) (vid : String) (nv : Version)
    (h : r.status = "blocked") :
    update_resource (some r) rid rtype rdoi vid nv = .ok .blocked ∧
      mergeStep rid (some r) ⟨rtype, rdoi, nv⟩ = some r := by
  have hall : ∀ (vid' : String) (nv' : Version),
      update_resource (some r) rid rtype rdoi vid' nv' = .ok .blocked := by
    intro vid' nv'
    simp [update_resource, h]
  exact ⟨hall vid nv, by simp [mergeStep, hall]⟩

/-- C3 witness. -/
theorem c3_witness :
    update_resource (some ⟨"blocked", [⟨"a", some "s", "1", none⟩], "r0", none, "model", none⟩)
        "r0" "model" none "b" ⟨"b", some "t", "2", some ["@y"]⟩ = .ok .blocked ∧
      mergeStep "r0"
          (some ⟨"blocked", [⟨"a", some "s", "1", none⟩], "r0", none, "model", none⟩)
          ⟨"model", none, ⟨"b", some "t", "2", some ["@y"]⟩⟩ =
        some ⟨"blocked", [⟨"a", some "s", "1", none⟩], "r0", none, "model", none⟩ :=
  c3_blocked_rejects
    ⟨"blocked", [⟨"a", some "s", "1", none⟩], "r0", none, "model", none⟩
    "r0" "model" none "b" ⟨"b", some "t", "2", some ["@y"]⟩ rfl

/-- C10: whenever the merge succeeds (a `written` outcome), a new version
carrying an `owners` field comes back with that key deleted, its value
hoisted to the resource's `owners`; a new version without `owners` comes
back unmodified. -/
theorem c10_owners_hoist (existing : Option Resource) (rid rtype : String)
    (rdoi : Option String) (vid : String) (nv : Version) (r : Resource)
    (nvOut : Version)
    (h : update_resource existing rid rtype rdoi vid nv = .ok (.written r nvOut)) :
    (∀ ow, nv.owners = some ow →
      nvOut = { nv with owners := none } ∧ r.owners = some ow) ∧
      (nv.owners = none → nvOut = nv) := by
  obtain ⟨hstrip, howners, -⟩ := update_resource_written h
  constructor
  · intro ow how
    exact ⟨by rw [hstrip]; simp [stripNew, how], howners ow how⟩
  · intro how
    rw [hstrip]; simp [stripNew, how]

/-- C10 witness. -/
theorem c10_witness :
    (⟨"a", some "s", "1", none⟩ : Version) =
        { (⟨"a", some "s", "1", some ["@u"]⟩ : Version) with owners := none } ∧
      (⟨"accepted", [⟨"a", some "s", "1", none⟩], "r0", none, "model",
        some ["@u"]⟩ : Resource).owners = some ["@u"] :=
  (c10_owners_hoist none "r0" "model" none "a" ⟨"a", some "s", "1", some ["@u"]⟩
      ⟨"accepted", [⟨"a", some "s", "1", none⟩], "r0", none, "model", some ["@u"]⟩
      ⟨"a", some "s", "1", none⟩ (by rfl)).1 ["@u"] rfl

/-! ### UpdateSelector (`main`, src/scripts/update_external_resources.py,
lines 172-189) -/

/-- Python `min` over the `created` fields of a version list
(`min([vv["created"] for vv in kv[1]])`); `""` for an empty list, on which
the source would raise instead. -/
def minCreated (vs : List Version) : String :=
  match vs with
  | [] => ""
  | v :: rest =>
    rest.foldl (fun m w => if pyLt w.created m then w.created else m) v.created

/-- The sort key of line 173: the tuple `(min created, resource_id)`. -/
def selKey (kv : String × List Version) : String × String :=
  (minCreated kv.2, kv.1)

/-- Python tuple comparison of two sort keys (lexicographic). -/
def keyLe (a b : String × List Version) : Prop :=
  pyLt (selKey a).1 (selKey b).1 = true ∨
    ((selKey a).1 = (selKey b).1 ∧ pyLe (selKey a).2 (selKey b).2 = true)

instance : DecidableRel keyLe := fun a b =>
  inferInstanceAs (Decidable (_ ∨ _))

theorem pyLt_le {a b : String} (h : pyLt a b = true) : pyLe a b = true := by
  rw [pyLt, Bool.not_eq_true'] at h
  rcases pyLe_total a b with h' | h'
  · exact h'
  · rw [h'] at h; cases h

theorem pyLt_asymm {a b : String} (h : pyLt a b = true) : pyLt b a = false := by
  have hle : pyLe a b = true := pyLt_le h
  rw [pyLt, hle]
  rfl

theorem pyLt_of_le_ne {a b : String} (h : pyLe a b = true) (hne : a ≠ b) :
    pyLt a b = true := by
  rw [pyLt, Bool.not_eq_true', ← Bool.not_eq_true]
  intro hba
  exact hne (pyLe_antisymm h hba)

instance : IsTotal (String × List Version) keyLe := by
  constructor
  intro a b
  by_cases h1 : (selKey a).1 = (selKey b).1
  · rcases pyLe_total (selKey a).2 (selKey b).2 with h | h
    · exact Or.inl (Or.inr ⟨h1, h⟩)
    · exact Or.inr (Or.inr ⟨h1.symm, h⟩)
  · rcases pyLe_total (selKey a).1 (selKey b).1 with h | h
    · exact Or.inl (Or.inl (pyLt_of_le_ne h h1))
    · exact Or.inr (Or.inl (pyLt_of_le_ne h (fun hk => h1 hk.symm)))

instance : IsTrans (String × List Version) keyLe := by
  constructor
  intro a b c hab hbc
  rcases hab with hab | ⟨hab, hab2⟩ <;> rcases hbc with hbc | ⟨hbc, hbc2⟩
  · left
    exact pyLt_of_le_ne (pyLe_trans (pyLt_le hab) (pyLt_le hbc)) (by
      intro hac
      rw [← hac] at hbc
      have := pyLt_asymm hab
      rw [hbc] at this
      cases this)
  · left; rw [← hbc]; exact hab
  · left; rw [hab]; exact hbc
  · right; exact ⟨hab.trans hbc, pyLe_trans hab2 hbc2⟩

theorem keyLe_antisymm_key {a b : String × List Version}
    (h1 : keyLe a b) (h2 : keyLe b a) : selKey a = selKey b := by
  rcases h1 with h1 | ⟨h1, h1b⟩ <;> rcases h2 with h2 | ⟨h2, h2b⟩
  · have := pyLt_asymm h1; rw [h2] at this; cases this
  · rw [h2] at h1
    have := pyLt_asymm h1; rw [h1] at this; cases this
  · rw [h1] at h2
    have := pyLt_asymm h2; rw [h2] at this; cases this
  · exact Prod.ext h1 (pyLe_antisymm h1b h2b)

/-- The marker naming convention of line 188: `auto-update-<resource_id>`
(the source checks `origin/auto-update-<id>` against the remote branch
list). -/
def markerName (resource_id : String) : String := "auto-update-" ++ resource_id

/-- Embedding of lines 172-189 of `main`: sort the `(resource_id, new
versions)` pairs by `(min created, resource_id)` ascending, take the first
`max_resource_count`, then remove every taken resource whose
`origin/auto-update-<id>` marker is in the remote branch list. -/
def selectUpdates (max_resource_count : Nat) (remote_branches : List String)
    (input : List (String × List Version)) : List (String × List Version) :=
  ((List.insertionSort keyLe input).take max_resource_count).filter
    (fun kv => !(remote_branches.contains ("origin/" ++ markerName kv.1)))

/-- Sorted lists with pairwise-distinct keys that are permutations of each
other are equal (uniqueness of the sorted order when keys are distinct). -/
theorem sorted_perm_unique :
    ∀ (l1 l2 : List (String × List Version)), l1.Perm l2 →
      l1.Sorted keyLe → l2.Sorted keyLe →
      l1.Pairwise (fun a b => selKey a ≠ selKey b) → l1 = l2 := by
  intro l1
  induction l1 with
  | nil =>
    intro l2 hp _ _ _
    exact (hp.symm.eq_nil).symm ▸ rfl
  | cons a t1 ih =>
    intro l2 hp hs1 hs2 hk
    cases l2 with
    | nil => cases hp.eq_nil
    | cons b t2 =>
      have hab : a = b := by
        by_contra hne
        have hbmem : b ∈ a :: t1 := hp.symm.subset (List.mem_cons_self b t2)
        have hamem : a ∈ b :: t2 := hp.subset (List.mem_cons_self a t1)
        have hb1 : b ∈ t1 := by
          rcases List.mem_cons.mp hbmem with h | h
          · exact absurd h.symm hne
          · exact h
        have ha2 : a ∈ t2 := by
          rcases List.mem_cons.mp hamem with h | h
          · exact absurd h hne
          · exact h
        have h1 : keyLe a b := List.rel_of_sorted_cons hs1 b hb1
        have h2 : keyLe b a := List.rel_of_sorted_cons hs2 a ha2
        have hkey : selKey a = selKey b := keyLe_antisymm_key h1 h2
        exact (List.pairwise_cons.mp hk).1 b hb1 hkey
      subst hab
      have hp' : t1.Perm t2 := hp.cons_inv
      rw [ih t2 hp' hs1.of_cons hs2.of_cons (List.pairwise_cons.mp hk).2]

/-- C6: the selector returns at most `max_resource_count` resources; every
returned resource's minimum `created` is at most the minimum `created` of
every resource cut off by the cap; and the result is the same for every
permutation of the input (the sort key is injective when ids are
distinct). -/
theorem c6_selector (N : Nat) (remote_branches : List String)
    (input : List (String × List Version))
    (hne : ∀ kv ∈ input, kv.2 ≠ [])
    (hids : input.Pairwise (fun a b => a.1 ≠ b.1)) :
    (selectUpdates N remote_branches input).length ≤ N ∧
    (∀ x ∈ selectUpdates N remote_branches input,
      ∀ y ∈ (List.insertionSort keyLe input).drop N,
        pyLe (minCreated x.2) (minCreated y.2) = true) ∧
    (∀ input2, input.Perm input2 →
      selectUpdates N remote_branches input = selectUpdates N remote_branches input2) := by
  refine ⟨?_, ?_, ?_⟩
  · exact le_trans (List.length_filter_le _ _) (List.length_take_le N _)
  · intro x hx y hy
    have hx' : x ∈ (List.insertionSort keyLe input).take N :=
      List.mem_of_mem_filter hx
    have hsorted : (List.insertionSort keyLe input).Pairwise keyLe :=
      List.sorted_insertionSort keyLe input
    rw [← List.take_append_drop N (List.insertionSort keyLe input)] at hsorted
    have hrel := (List.pairwise_append.mp hsorted).2.2 x hx' y hy
    rcases hrel with h | ⟨h, -⟩
    · exact pyLt_le h
    · rw [show (selKey x).1 = minCreated x.2 from rfl,
        show (selKey y).1 = minCreated y.2 from rfl] at h
      rw [h]
      exact pyLe_refl _
  · intro input2 hperm
    have hkeys : input.Pairwise (fun a b => selKey a ≠ selKey b) :=
      hids.imp (fun h hk => h (congrArg Prod.snd hk))
    have hsorteq : List.insertionSort keyLe input = List.insertionSort keyLe input2 := by
      apply sorted_perm_unique
      · exact ((List.perm_insertionSort keyLe input).trans hperm).trans
          (List.perm_insertionSort keyLe input2).symm
      · exact List.sorted_insertionSort keyLe input
      · exact List.sorted_insertionSort keyLe input2
      · exact (List.Perm.pairwise_iff (fun h hk => h hk.symm)
          (List.perm_insertionSort keyLe input)).mpr hkeys
    rw [selectUpdates, selectUpdates, hsorteq]

/-- C6 witness: two resources, cap 1; the younger resource `rB` (older
pending change, `created` `"1"`) is taken and survives the marker filter;
`rA` is cut off by the cap. -/
theorem c6_witness :
    (selectUpdates 1 ["origin/auto-update-rC"]
        [("rA", [⟨"x", none, "2", none⟩]), ("rB", [⟨"y", none, "1", none⟩])]).length ≤ 1 ∧
    (∀ x ∈ selectUpdates 1 ["origin/auto-update-rC"]
        [("rA", [⟨"x", none, "2", none⟩]), ("rB", [⟨"y", none, "1", none⟩])],
      ∀ y ∈ (List.insertionSort keyLe
        [("rA", [⟨"x", none, "2", none⟩]), ("rB", [⟨"y", none, "1", none⟩])]).drop 1,
        pyLe (minCreated x.2) (minCreated y.2) = true) ∧
    (∀ input2,
      List.Perm [("rA", [⟨"x", none, "2", none⟩]), ("rB", [⟨"y", none, "1", none⟩])] input2 →
      selectUpdates 1 ["origin/auto-update-rC"]
          [("rA", [⟨"x", none, "2", none⟩]), ("rB", [⟨"y", none, "1", none⟩])] =
        selectUpdates 1 ["origin/auto-update-rC"] input2) :=
  c6_selector 1 ["origin/auto-update-rC"]
    [("rA", [⟨"x", none, "2", none⟩]), ("rB", [⟨"y", none, "1", none⟩])]
    (by decide) (by decide)

/-! ### ArchiveScanner (`update_from_zenodo`, src/scripts/
update_external_resources.py, lines 95-159) -/

/-- One entry of `hit["files"]`: its `key` and its fetch URL
(`file_hit["links"]["self"]`). -/
structure FileHit where
  key : String
  url : String
deriving DecidableEq

/-- One archive hit, holding the fields the scanner reads. -/
structure Hit where
  id : String
  conceptdoi : String
  doi : String
  created : String
  owners : List String
  versionIndex : Nat
  files : List FileHit
deriving DecidableEq

/-- A parsed rdf descriptor; only `name` and `type` are read
(`rdf.get("name", doi)`, `rdf.get("type")`). -/
structure RdfDoc where
  name : Option String
  rtype : Option String
deriving DecidableEq

/-- The derived fields of the `new_version` record built in lines 136-147
(the rest — `doi`, `owners`, `created`, `status` — are verbatim copies of
the hit). -/
structure HitResult where
  rdf_source : String
  name : String
  resource_type : Option String
  version_id : String
  version_name : String
deriving DecidableEq

/-- Line 118: the self-links of all files named exactly `rdf.yaml`. -/
def rdfUrls (hit : Hit) : List String :=
  (hit.files.filter (fun f => f.key == "rdf.yaml")).map (fun f => f.url)

/-- String `≤` as a sort relation, for `sorted(rdf_urls)`. -/
def urlLe (a b : String) : Prop := pyLe a b = true

instance : DecidableRel urlLe := fun a b =>
  inferInstanceAs (Decidable (pyLe a b = true))

instance : IsTotal String urlLe := ⟨pyLe_total⟩

instance : IsTrans String urlLe := ⟨fun _ _ _ => pyLe_trans⟩

/-- An ASCII apostrophe, for `version_id = f"'{hit['id']}'"`. -/
def singleQuote : String := String.singleton (Char.ofNat 39)

/-- Embedding of the per-hit processing of `update_from_zenodo`, lines
117-147.  `fetch` is the external GET-and-parse of the rdf descriptor
(`requests.get` + `yaml.load` + attribute access): `none` models any
failure in that `try` block — a failed fetch, an unparsable document, or a
parse result that is not a mapping (whose `.get` raises) — all of which
leave the defaults in place.  The returned `Bool` records whether the
multiple-rdf-sources warning was printed (line 125). -/
def processHit (fetch : String → Option RdfDoc) (hit : Hit) : HitResult × Bool :=
  let urls := rdfUrls hit
  let warned := decide (urls.length > 1)
  let version_id := singleQuote ++ hit.id ++ singleQuote
  let version_name := "version " ++ toString (hit.versionIndex + 1)
  match urls with
  | [] => (⟨"unknown", hit.doi, some "unknown", version_id, version_name⟩, warned)
  | u :: rest =>
    let rdf_source := (List.insertionSort urlLe (u :: rest)).headD "unknown"
    match fetch rdf_source with
    | some rdf =>
      (⟨rdf_source, rdf.name.getD hit.doi, rdf.rtype, version_id, version_name⟩, warned)
    | none => (⟨rdf_source, hit.doi, some "unknown", version_id, version_name⟩, warned)

/-- C8: when a hit references at least one rdf descriptor, a failed fetch
or parse never aborts the scan — the version's type falls back to
`"unknown"` and its name to the hit's (version) doi; the descriptor
actually fetched is the lexicographically smallest of the referenced URLs,
and referencing more than one descriptor records a warning. -/
theorem c8_scanner_degrades (fetch : String → Option RdfDoc) (hit : Hit)
    (hurls : rdfUrls hit ≠ []) :
    (fetch ((processHit fetch hit).1.rdf_source) = none →
      (processHit fetch hit).1.resource_type = some "unknown" ∧
        (processHit fetch hit).1.name = hit.doi) ∧
    ((processHit fetch hit).1.rdf_source ∈ rdfUrls hit ∧
      ∀ u ∈ rdfUrls hit, pyLe ((processHit fetch hit).1.rdf_source) u = true) ∧
    ((rdfUrls hit).length > 1 → (processHit fetch hit).2 = true) := by
  rcases hu : rdfUrls hit with _ | ⟨u, rest⟩
  · exact absurd hu hurls
  · have hsorted : (List.insertionSort urlLe (u :: rest)).Sorted urlLe :=
      List.sorted_insertionSort urlLe (u :: rest)
    have hperm : (List.insertionSort urlLe (u :: rest)).Perm (u :: rest) :=
      List.perm_insertionSort urlLe (u :: rest)
    rcases hs : List.insertionSort urlLe (u :: rest) with _ | ⟨c, cs⟩
    · rw [hs] at hperm
      exact (List.cons_ne_nil u rest hperm.symm.eq_nil).elim
    · rw [hs] at hsorted hperm
      have hcmem : c ∈ u :: rest := hperm.subset (List.mem_cons_self c cs)
      have hcmin : ∀ v ∈ u :: rest, pyLe c v = true := by
        intro v hv
        rcases List.mem_cons.mp (hperm.symm.subset hv) with h | h
        · rw [h]; exact pyLe_refl _
        · exact List.rel_of_sorted_cons hsorted v h
      have hsource : (processHit fetch hit).1.rdf_source = c := by
        simp only [processHit, hu, hs]
        cases fetch ((c :: cs).headD "unknown") <;> rfl
      refine ⟨?_, ?_, ?_⟩
      · intro hfail
        rw [hsource] at hfail
        simp only [processHit, hu, hs, List.headD_cons, hfail]
        exact ⟨trivial, trivial⟩
      · rw [hsource]
        exact ⟨hcmem, hcmin⟩
      · intro hlen
        simp only [processHit, hu]
        cases fetch ((List.insertionSort urlLe (u :: rest)).headD "unknown") <;>
          simp_all

/-- C8 witness: two rdf descriptors, fetch always failing. -/
theorem c8_witness :
    ((fun _ => (none : Option RdfDoc))
        ((processHit (fun _ => none)
          ⟨"7", "cd", "10.1/z.7", "2024", [], 0,
            [⟨"rdf.yaml", "b"⟩, ⟨"rdf.yaml", "a"⟩]⟩).1.rdf_source) = none →
      (processHit (fun _ => none)
          ⟨"7", "cd", "10.1/z.7", "2024", [], 0,
            [⟨"rdf.yaml", "b"⟩, ⟨"rdf.yaml", "a"⟩]⟩).1.resource_type = some "unknown" ∧
        (processHit (fun _ => none)
          ⟨"7", "cd", "10.1/z.7", "2024", [], 0,
            [⟨"rdf.yaml", "b"⟩, ⟨"rdf.yaml", "a"⟩]⟩).1.name = "10.1/z.7") ∧
    ((processHit (fun _ => none)
        ⟨"7", "cd", "10.1/z.7", "2024", [], 0,
          [⟨"rdf.yaml", "b"⟩, ⟨"rdf.yaml", "a"⟩]⟩).1.rdf_source ∈
        rdfUrls ⟨"7", "cd", "10.1/z.7", "2024", [], 0,
          [⟨"rdf.yaml", "b"⟩, ⟨"rdf.yaml", "a"⟩]⟩ ∧
      ∀ u ∈ rdfUrls ⟨"7", "cd", "10.1/z.7", "2024", [], 0,
          [⟨"rdf.yaml", "b"⟩, ⟨"rdf.yaml", "a"⟩]⟩,
        pyLe ((processHit (fun _ => none)
          ⟨"7", "cd", "10.1/z.7", "2024", [], 0,
            [⟨"rdf.yaml", "b"⟩, ⟨"rdf.yaml", "a"⟩]⟩).1.rdf_source) u = true) ∧
    ((rdfUrls ⟨"7", "cd", "10.1/z.7", "2024", [], 0,
        [⟨"rdf.yaml", "b"⟩, ⟨"rdf.yaml", "a"⟩]⟩).length > 1 →
      (processHit (fun _ => none)
        ⟨"7", "cd", "10.1/z.7", "2024", [], 0,
          [⟨"rdf.yaml", "b"⟩, ⟨"rdf.yaml", "a"⟩]⟩).2 = true) :=
  c8_scanner_degrades (fun _ => none)
    ⟨"7", "cd", "10.1/z.7", "2024", [], 0, [⟨"rdf.yaml", "b"⟩, ⟨"rdf.yaml", "a"⟩]⟩
    (by decide)

/-! ### Aggregation (`main`, src/scripts/generate_collection_rdf.py)

The filesystem and git state the aggregation reads is passed in as data:
`branches` is the remote branch list (`git branch -r` output), `ghPages`
maps a version id to the content of `dist/gh-pages/resources/<vid>/
rdf.yaml`, and `previews` maps a resource id to the same per-version map
for the worktree of its preview branch.  A version's rdf content (with its
validation summaries) is opaque except for the `type` key; `payload`
stands for the rest of the document. -/

/-- A loaded `rdf.yaml` version document: its `type` key (read as
`this_version.get("type", "unknown")`) plus the rest of its content,
opaque. -/
structure VersionRdf where
  rtype : Option String
  payload : String
deriving DecidableEq

/-- The parse result of a content file: a mapping, or a non-dict value
(skipped with a diagnostic, line 86-88). -/
inductive ContentFile
  | dict (d : VersionRdf)
  | scalar (s : String)
deriving DecidableEq

/-- One catalog entry: the latest accepted version's content, annotated
with `resource_id` and `previous_versions` (lines 102-107). -/
structure CatalogEntry where
  content : VersionRdf
  resource_id : String
  previous_versions : List VersionRdf
deriving DecidableEq

/-- One entry of a resource record's `versions` list, as read by the
aggregation (only `version_id` and `status` are used). -/
structure CollVersion where
  version_id : String
  status : String
deriving DecidableEq

/-- A resource record under `collection/` as read by the aggregation. -/
structure CollResource where
  resource_id : String
  status : String
  versions : List CollVersion
deriving DecidableEq

/-- The git/filesystem state the aggregation runs against. -/
structure GhState where
  branches : List String
  ghPages : List (String × ContentFile)
  previews : List (String × List (String × ContentFile))
deriving DecidableEq

/-- Line 52: the preview branch name of a resource. -/
def previewBranch (rid : String) : String := "gh-pages-auto-update-" ++ rid

/-- Which location a version's content is read from, if any. -/
inductive Resolved
  | fromPreview (c : ContentFile)
  | fromCanonical (c : ContentFile)
  | missing
deriving DecidableEq

/-- Version resolution, lines 51-83: when the resource's preview branch
exists (`from_preview`), the path is always the preview worktree path —
which no longer exists if the version dir was already moved out, and which
is simply missing when the preview does not hold the version; the
canonical `gh-pages` path is only consulted when no preview branch exists.
A missing path means the version is skipped (line 81-83). -/
def resolveVersion (st : GhState) (rid : String) (moved : List String)
    (vid : String) : Resolved :=
  if ("origin/" ++ previewBranch rid) ∈ st.branches then
    if vid ∈ moved then .missing
    else
      match ((st.previews.lookup rid).getD []).lookup vid with
      | some c => .fromPreview c
      | none => .missing
  else
    match st.ghPages.lookup vid with
    | some c => .fromCanonical c
    | none => .missing

/-- Lines 102-107: the first accepted version with content becomes the
latest (empty `previous_versions`); later ones are appended. -/
def addVersion (latest : Option CatalogEntry) (rid : String) (d : VersionRdf) :
    Option CatalogEntry :=
  match latest with
  | none => some ⟨d, rid, []⟩
  | some e => some { e with previous_versions := e.previous_versions ++ [d] }

/-- The per-resource version loop, lines 60-107.  `moved` holds the
version dirs already moved out of this resource's preview worktree (the
`copy_function=shutil.move` of line 73); `consumed` accumulates
`processed_gh_pages_previews` entries, one per version found in the
preview (line 70) — even for content that later turns out not to be a
mapping. -/
def procVersions (st : GhState) (rid : String) :
    List CollVersion → Option CatalogEntry → List String → List String →
      Option CatalogEntry × List String
  | [], latest, _, consumed => (latest, consumed)
  | v :: rest, latest, moved, consumed =>
    if v.status ≠ "accepted" then procVersions st rid rest latest moved consumed
    else
      match resolveVersion st rid moved v.version_id with
      | .missing => procVersions st rid rest latest moved consumed
      | .fromPreview (.scalar _) =>
        procVersions st rid rest latest (v.version_id :: moved)
          (consumed ++ [previewBranch rid])
      | .fromPreview (.dict d) =>
        procVersions st rid rest (addVersion latest rid d) (v.version_id :: moved)
          (consumed ++ [previewBranch rid])
      | .fromCanonical (.scalar _) => procVersions st rid rest latest moved consumed
      | .fromCanonical (.dict d) =>
        procVersions st rid rest (addVersion latest rid d) moved consumed

/-- A value under the template's `attachments` mapping: `null`, a list of
entries, or some other (non-list) document value. -/
inductive AttachVal
  | vnull
  | vlist (entries : List CatalogEntry)
  | vstr (s : String)
deriving DecidableEq

/-- Python dict assignment `m[k] = v`: replace in place, or append the new
key at the end. -/
def setKey : List (String × AttachVal) → String → AttachVal →
    List (String × AttachVal)
  | [], k, v => [(k, v)]
  | (k0, v0) :: rest, k, v =>
    if k0 = k then (k, v) :: rest else (k0, v0) :: setKey rest k v

/-- Same for the counter dicts. -/
def setNat : List (String × Nat) → String → Nat → List (String × Nat)
  | [], k, v => [(k, v)]
  | (k0, v0) :: rest, k, v =>
    if k0 = k then (k, v) :: rest else (k0, v0) :: setNat rest k v

/-- Python `m.get(k, 0)`. -/
def getNat (m : List (String × Nat)) (k : String) : Nat :=
  (m.lookup k).getD 0

/-- The document state the aggregation builds: the `attachments` mapping
of the output document, the two counter dicts, and the consumed-preview
list. -/
structure BuildState where
  attachments : List (String × AttachVal)
  n_accepted : List (String × Nat)
  n_accepted_versions : List (String × Nat)
  consumed : List String
deriving DecidableEq

/-- The per-resource body of the main loop, lines 46-122: skip non-accepted
resources; process the versions; then file the latest under its type —
`attachments[type_] = attachments.get(type_)` (line 113) inserts the key
with `None` when absent; the entry is appended and counted only when the
value is a list. -/
def processResource (st : GhState) (bs : BuildState) (r : CollResource) :
    BuildState :=
  if r.status ≠ "accepted" then bs
  else
    let res := procVersions st r.resource_id r.versions none [] []
    let bs1 : BuildState := { bs with consumed := bs.consumed ++ res.2 }
    match res.1 with
    | none => bs1
    | some entry =>
      let ty := entry.content.rtype.getD "unknown"
      let cur := (bs1.attachments.lookup ty).getD .vnull
      let att1 := setKey bs1.attachments ty cur
      match cur with
      | .vlist l =>
        { bs1 with
          attachments := setKey att1 ty (.vlist (l ++ [entry])),
          n_accepted := setNat bs1.n_accepted ty (getNat bs1.n_accepted ty + 1),
          n_accepted_versions := setNat bs1.n_accepted_versions ty
            (getNat bs1.n_accepted_versions ty + 1 + entry.previous_versions.length) }
      | _ => { bs1 with attachments := att1 }

/-- The whole aggregation loop over the known resources, starting from the
template's `attachments` mapping and empty counters. -/
def aggregate (st : GhState) (template : List (String × AttachVal))
    (resources : List CollResource) : BuildState :=
  resources.foldl (processResource st) ⟨template, [], [], []⟩

/-- Total number of catalog entries filed under all type buckets. -/
def entriesCount (m : List (String × AttachVal)) : Nat :=
  m.foldl (fun acc kv => match kv.2 with | .vlist l => acc + l.length | _ => acc) 0

/-- C4 counterexample: the preview branch of `r1` exists but holds no
content for `v1`, while the canonical location does hold it.  The claim
says resolution then uses the canonical location; the code resolves the
(nonexistent) preview path and the version is skipped (`missing`), the
canonical content untouched. -/
theorem c4_counterexample :
    resolveVersion
        ⟨["origin/gh-pages-auto-update-r1"],
          [("v1", ContentFile.dict ⟨some "model", "A"⟩)], [("r1", [])]⟩
        "r1" [] "v1" = .missing ∧
      (⟨["origin/gh-pages-auto-update-r1"],
          [("v1", ContentFile.dict ⟨some "model", "A"⟩)], [("r1", [])]⟩ :
        GhState).ghPages.lookup "v1" =
        some (ContentFile.dict ⟨some "model", "A"⟩) := by
  exact ⟨by decide, by decide⟩

/-- C4 (amended): resolution prefers the preview location whenever the
resource's preview branch exists and holds the version; when the preview
branch exists but does not hold the version, resolution yields nothing at
all (the version is skipped — the canonical location is *not* consulted);
the canonical location is used exactly when no preview branch exists and
it holds the version. -/
theorem c4_resolution (st : GhState) (rid vid : String) (moved : List String)
    (hmoved : vid ∉ moved) :
    (∀ c, ("origin/" ++ previewBranch rid) ∈ st.branches →
      ((st.previews.lookup rid).getD []).lookup vid = some c →
      resolveVersion st rid moved vid = .fromPreview c) ∧
    (("origin/" ++ previewBranch rid) ∈ st.branches →
      ((st.previews.lookup rid).getD []).lookup vid = none →
      resolveVersion st rid moved vid = .missing) ∧
    (∀ c, ("origin/" ++ previewBranch rid) ∉ st.branches →
      st.ghPages.lookup vid = some c →
      resolveVersion st rid moved vid = .fromCanonical c) ∧
    (("origin/" ++ previewBranch rid) ∉ st.branches →
      st.ghPages.lookup vid = none →
      resolveVersion st rid moved vid = .missing) := by
  refine ⟨?_, ?_, ?_, ?_⟩
  · intro c hbr hlook
    simp [resolveVersion, hbr, hmoved, hlook]
  · intro hbr hlook
    simp [resolveVersion, hbr, hmoved, hlook]
  · intro c hbr hlook
    simp [resolveVersion, hbr, hlook]
  · intro hbr hlook
    simp [resolveVersion, hbr, hlook]

/-- C4 witness. -/
theorem c4_witness :
    (∀ c, ("origin/" ++ previewBranch "r1") ∈
        (⟨["origin/gh-pages-auto-update-r1"], [],
          [("r1", [("v2", ContentFile.dict ⟨some "model", "B"⟩)])]⟩ :
          GhState).branches →
      (((⟨["origin/gh-pages-auto-update-r1"], [],
          [("r1", [("v2", ContentFile.dict ⟨some "model", "B"⟩)])]⟩ :
          GhState).previews.lookup "r1").getD []).lookup "v2" = some c →
      resolveVersion
          ⟨["origin/gh-pages-auto-update-r1"], [],
            [("r1", [("v2", ContentFile.dict ⟨some "model", "B"⟩)])]⟩
          "r1" [] "v2" = .fromPreview c) ∧
    (("origin/" ++ previewBranch "r1") ∈
        (⟨["origin/gh-pages-auto-update-r1"], [],
          [("r1", [("v2", ContentFile.dict ⟨some "model", "B"⟩)])]⟩ :
          GhState).branches →
      (((⟨["origin/gh-pages-auto-update-r1"], [],
          [("r1", [("v2", ContentFile.dict ⟨some "model", "B"⟩)])]⟩ :
          GhState).previews.lookup "r1").getD []).lookup "v2" = none →
      resolveVersion
          ⟨["origin/gh-pages-auto-update-r1"], [],
            [("r1", [("v2", ContentFile.dict ⟨some "model", "B"⟩)])]⟩
          "r1" [] "v2" = .missing) ∧
    (∀ c, ("origin/" ++ previewBranch "r1") ∉
        (⟨["origin/gh-pages-auto-update-r1"], [],
          [("r1", [("v2", ContentFile.dict ⟨some "model", "B"⟩)])]⟩ :
          GhState).branches →
      (⟨["origin/gh-pages-auto-update-r1"], [],
          [("r1", [("v2", ContentFile.dict ⟨some "model", "B"⟩)])]⟩ :
          GhState).ghPages.lookup "v2" = some c →
      resolveVersion
          ⟨["origin/gh-pages-auto-update-r1"], [],
            [("r1", [("v2", ContentFile.dict ⟨some "model", "B"⟩)])]⟩
          "r1" [] "v2" = .fromCanonical c) ∧
    (("origin/" ++ previewBranch "r1") ∉
        (⟨["origin/gh-pages-auto-update-r1"], [],
          [("r1", [("v2", ContentFile.dict ⟨some "model", "B"⟩)])]⟩ :
          GhState).branches →
      (⟨["origin/gh-pages-auto-update-r1"], [],
          [("r1", [("v2", ContentFile.dict ⟨some "model", "B"⟩)])]⟩ :
          GhState).ghPages.lookup "v2" = none →
      resolveVersion
          ⟨["origin/gh-pages-auto-update-r1"], [],
            [("r1", [("v2", ContentFile.dict ⟨some "model", "B"⟩)])]⟩
          "r1" [] "v2" = .missing) :=
  c4_resolution
    ⟨["origin/gh-pages-auto-update-r1"], [],
      [("r1", [("v2", ContentFile.dict ⟨some "model", "B"⟩)])]⟩
    "r1" "v2" [] (by decide)

/-- C5 counterexample.  First scenario: resource `r1` has accepted
versions `v1` (content only in the canonical location) and `v2` (content
in the preview); the claim predicts one catalog entry with one previous
version, but `v1` is skipped (preview branch exists, so canonical is never
read) and the single entry has *zero* previous versions.  Second scenario:
two accepted versions both held by the preview make the preview name
appear twice in the consumed list, refuting "a preview is consumed at most
once per run". -/
theorem c5_counterexample :
    (aggregate
        ⟨["origin/gh-pages-auto-update-r1"],
          [("v1", ContentFile.dict ⟨some "model", "A"⟩)],
          [("r1", [("v2", ContentFile.dict ⟨some "model", "B"⟩)])]⟩
        [("model", AttachVal.vlist [])]
        [⟨"r1", "accepted", [⟨"v1", "accepted"⟩, ⟨"v2", "accepted"⟩]⟩]) =
      ⟨[("model", AttachVal.vlist [⟨⟨some "model", "B"⟩, "r1", []⟩])],
        [("model", 1)], [("model", 1)], ["gh-pages-auto-update-r1"]⟩ ∧
    (⟨⟨some "model", "B"⟩, "r1", []⟩ : CatalogEntry).previous_versions.length = 0 ∧
    (aggregate
        ⟨["origin/gh-pages-auto-update-r1"], [],
          [("r1", [("v1", ContentFile.dict ⟨some "model", "A"⟩),
                   ("v2", ContentFile.dict ⟨some "model", "B"⟩)])]⟩
        [("model", AttachVal.vlist [])]
        [⟨"r1", "accepted", [⟨"v1", "accepted"⟩, ⟨"v2", "accepted"⟩]⟩]).consumed =
      ["gh-pages-auto-update-r1", "gh-pages-auto-update-r1"] := by
  exact ⟨by decide, rfl, by decide⟩

/-- C5 (amended): for a resource with two accepted versions — the first
resolvable only from the canonical location, the second from the
resource's preview — aggregation produces exactly one catalog entry, whose
`previous_versions` has length 0 (the canonical-only version is skipped,
because the existing preview branch pre-empts the canonical location), and
the preview name is reported consumed exactly once in this scenario (in
general it is reported once per accepted version found in the preview, so
it can appear more than once per run). -/
theorem c5_scenario (dA dB : VersionRdf) :
    (aggregate
        ⟨["origin/gh-pages-auto-update-r1"], [("v1", ContentFile.dict dA)],
          [("r1", [("v2", ContentFile.dict dB)])]⟩
        [(dB.rtype.getD "unknown", AttachVal.vlist [])]
        [⟨"r1", "accepted", [⟨"v1", "accepted"⟩, ⟨"v2", "accepted"⟩]⟩]).attachments =
      [(dB.rtype.getD "unknown", AttachVal.vlist [⟨dB, "r1", []⟩])] ∧
    entriesCount
      (aggregate
        ⟨["origin/gh-pages-auto-update-r1"], [("v1", ContentFile.dict dA)],
          [("r1", [("v2", ContentFile.dict dB)])]⟩
        [(dB.rtype.getD "unknown", AttachVal.vlist [])]
        [⟨"r1", "accepted", [⟨"v1", "accepted"⟩, ⟨"v2", "accepted"⟩]⟩]).attachments = 1 ∧
    (aggregate
        ⟨["origin/gh-pages-auto-update-r1"], [("v1", ContentFile.dict dA)],
          [("r1", [("v2", ContentFile.dict dB)])]⟩
        [(dB.rtype.getD "unknown", AttachVal.vlist [])]
        [⟨"r1", "accepted", [⟨"v1", "accepted"⟩, ⟨"v2", "accepted"⟩]⟩]).consumed =
      ["gh-pages-auto-update-r1"] := by
  have hagg : (aggregate
      ⟨["origin/gh-pages-auto-update-r1"], [("v1", ContentFile.dict dA)],
        [("r1", [("v2", ContentFile.dict dB)])]⟩
      [(dB.rtype.getD "unknown", AttachVal.vlist [])]
      [⟨"r1", "accepted", [⟨"v1", "accepted"⟩, ⟨"v2", "accepted"⟩]⟩]) =
      ⟨[(dB.rtype.getD "unknown", AttachVal.vlist [⟨dB, "r1", []⟩])],
        [(dB.rtype.getD "unknown", 1)], [(dB.rtype.getD "unknown", 1)],
        ["gh-pages-auto-update-r1"]⟩ := by
    simp [aggregate, processResource, procVersions, resolveVersion, previewBranch,
      addVersion, setKey, setNat, getNat, List.lookup, entriesCount]
  rw [hagg]
  exact ⟨rfl, rfl, rfl⟩

/-- C5 witness: the scenario with concrete version contents. -/
theorem c5_witness :
    (aggregate
        ⟨["origin/gh-pages-auto-update-r1"],
          [("v1", ContentFile.dict ⟨some "model", "A"⟩)],
          [("r1", [("v2", ContentFile.dict ⟨some "model", "B"⟩)])]⟩
        [("model", AttachVal.vlist [])]
        [⟨"r1", "accepted", [⟨"v1", "accepted"⟩, ⟨"v2", "accepted"⟩]⟩]).attachments =
      [("model", AttachVal.vlist [⟨⟨some "model", "B"⟩, "r1", []⟩])] ∧
    entriesCount
      (aggregate
        ⟨["origin/gh-pages-auto-update-r1"],
          [("v1", ContentFile.dict ⟨some "model", "A"⟩)],
          [("r1", [("v2", ContentFile.dict ⟨some "model", "B"⟩)])]⟩
        [("model", AttachVal.vlist [])]
        [⟨"r1", "accepted", [⟨"v1", "accepted"⟩, ⟨"v2", "accepted"⟩]⟩]).attachments = 1 ∧
    (aggregate
        ⟨["origin/gh-pages-auto-update-r1"],
          [("v1", ContentFile.dict ⟨some "model", "A"⟩)],
          [("r1", [("v2", ContentFile.dict ⟨some "model", "B"⟩)])]⟩
        [("model", AttachVal.vlist [])]
        [⟨"r1", "accepted", [⟨"v1", "accepted"⟩, ⟨"v2", "accepted"⟩]⟩]).consumed =
      ["gh-pages-auto-update-r1"] :=
  c5_scenario ⟨some "model", "A"⟩ ⟨some "model", "B"⟩

/-- C9 counterexample: the template's `attachments` holds the resource's
type `model` with a (non-list, non-null) string value.  The claim asserts
the builder inserts the type with a `null` value whenever the type is "not
present as a list"; in fact the existing value is left exactly as it is —
only a fully absent key is inserted as `null`.  (The resource is indeed
dropped from all entries and counts.) -/
theorem c9_counterexample :
    (aggregate ⟨[], [("v1", ContentFile.dict ⟨some "model", "A"⟩)], []⟩
        [("model", AttachVal.vstr "hello")]
        [⟨"r1", "accepted", [⟨"v1", "accepted"⟩]⟩]) =
      ⟨[("model", AttachVal.vstr "hello")], [], [], []⟩ ∧
    (⟨[("model", AttachVal.vstr "hello")], [], [], []⟩ :
        BuildState).attachments.lookup "model" ≠ some .vnull := by
  exact ⟨by decide, by decide⟩

theorem setKey_absent {m : List (String × AttachVal)} {k : String}
    (h : m.lookup k = none) (v : AttachVal) : setKey m k v = m ++ [(k, v)] := by
  induction m with
  | nil => rfl
  | cons kv rest ih =>
    obtain ⟨k0, v0⟩ := kv
    rw [List.lookup_cons] at h
    by_cases hk : k0 = k
    · rw [show (k == k0) = true from beq_iff_eq.mpr hk.symm] at h
      cases h
    · rw [show (k == k0) = false from
        beq_eq_false_iff_ne.mpr (fun he => hk he.symm)] at h
      simp only [setKey, if_neg hk, List.cons_append, ih h]

theorem setKey_self {m : List (String × AttachVal)} {k : String} {v : AttachVal}
    (h : m.lookup k = some v) : setKey m k v = m := by
  induction m with
  | nil => cases h
  | cons kv rest ih =>
    obtain ⟨k0, v0⟩ := kv
    rw [List.lookup_cons] at h
    by_cases hk : k0 = k
    · rw [show (k == k0) = true from beq_iff_eq.mpr hk.symm] at h
      injection h with h
      rw [setKey, if_pos hk, hk, h]
    · rw [show (k == k0) = false from
        beq_eq_false_iff_ne.mpr (fun he => hk he.symm)] at h
      rw [setKey, if_neg hk, ih h]

/-- C9 (amended): when the latest accepted version's type is completely
absent from the output document's `attachments`, the builder still mutates
the template — it appends the type as a key holding `null` — while the
resource is dropped from all entries and counts; when the type is present
but its value is not a list, the value is written back unchanged and the
resource is likewise dropped. -/
theorem c9_frame (st : GhState) (bs : BuildState) (r : CollResource)
    (entry : CatalogEntry) (cons : List String)
    (hacc : r.status = "accepted")
    (hproc : procVersions st r.resource_id r.versions none [] [] = (some entry, cons)) :
    (bs.attachments.lookup (entry.content.rtype.getD "unknown") = none →
      (processResource st bs r).attachments =
        bs.attachments ++ [(entry.content.rtype.getD "unknown", .vnull)] ∧
      (processResource st bs r).n_accepted = bs.n_accepted ∧
      (processResource st bs r).n_accepted_versions = bs.n_accepted_versions) ∧
    (∀ v, bs.attachments.lookup (entry.content.rtype.getD "unknown") = some v →
      (∀ l, v ≠ .vlist l) →
      (processResource st bs r).attachments = bs.attachments ∧
      (processResource st bs r).n_accepted = bs.n_accepted ∧
      (processResource st bs r).n_accepted_versions = bs.n_accepted_versions) := by
  have hproc' : processResource st bs r =
      { bs with
        consumed := bs.consumed ++ cons,
        attachments := setKey bs.attachments (entry.content.rtype.getD "unknown")
          ((bs.attachments.lookup (entry.content.rtype.getD "unknown")).getD .vnull),
        n_accepted := bs.n_accepted,
        n_accepted_versions := bs.n_accepted_versions } ∨
      ∃ l, (bs.attachments.lookup (entry.content.rtype.getD "unknown")).getD .vnull =
        .vlist l := by
    rw [processResource, if_neg (by rw [hacc]; simp), hproc]
    rcases hcur : (bs.attachments.lookup (entry.content.rtype.getD "unknown")).getD .vnull
      with _ | l | s
    · left; simp [hcur]
    · right; exact ⟨l, rfl⟩
    · left; simp [hcur]
  constructor
  · intro habs
    rcases hproc' with h | ⟨l, hl⟩
    · rw [h]
      refine ⟨?_, rfl, rfl⟩
      rw [habs]
      exact setKey_absent habs .vnull
    · rw [habs] at hl
      cases hl
  · intro v hv hnl
    rcases hproc' with h | ⟨l, hl⟩
    · rw [h]
      refine ⟨?_, rfl, rfl⟩
      rw [hv]
      exact setKey_self hv
    · rw [hv] at hl
      exact absurd hl (hnl l)

/-- C9 witness: empty template attachments, one accepted resource of type
`model` resolvable from the canonical location. -/
theorem c9_witness :
    ((⟨[], [], [], []⟩ : BuildState).attachments.lookup
        ((⟨⟨some "model", "A"⟩, "r1", []⟩ :
          CatalogEntry).content.rtype.getD "unknown") = none →
      (processResource ⟨[], [("v1", ContentFile.dict ⟨some "model", "A"⟩)], []⟩
          ⟨[], [], [], []⟩ ⟨"r1", "accepted", [⟨"v1", "accepted"⟩]⟩).attachments =
        (⟨[], [], [], []⟩ : BuildState).attachments ++
          [((⟨⟨some "model", "A"⟩, "r1", []⟩ :
            CatalogEntry).content.rtype.getD "unknown", .vnull)] ∧
      (processResource ⟨[], [("v1", ContentFile.dict ⟨some "model", "A"⟩)], []⟩
          ⟨[], [], [], []⟩ ⟨"r1", "accepted", [⟨"v1", "accepted"⟩]⟩).n_accepted =
        (⟨[], [], [], []⟩ : BuildState).n_accepted ∧
      (processResource ⟨[], [("v1", ContentFile.dict ⟨some "model", "A"⟩)], []⟩
          ⟨[], [], [], []⟩
          ⟨"r1", "accepted", [⟨"v1", "accepted"⟩]⟩).n_accepted_versions =
        (⟨[], [], [], []⟩ : BuildState).n_accepted_versions) ∧
    (∀ v, (⟨[], [], [], []⟩ : BuildState).attachments.lookup
        ((⟨⟨some "model", "A"⟩, "r1", []⟩ :
          CatalogEntry).content.rtype.getD "unknown") = some v →
      (∀ l, v ≠ .vlist l) →
      (processResource ⟨[], [("v1", ContentFile.dict ⟨some "model", "A"⟩)], []⟩
          ⟨[], [], [], []⟩ ⟨"r1", "accepted", [⟨"v1", "accepted"⟩]⟩).attachments =
        (⟨[], [], [], []⟩ : BuildState).attachments ∧
      (processResource ⟨[], [("v1", ContentFile.dict ⟨some "model", "A"⟩)], []⟩
          ⟨[], [], [], []⟩ ⟨"r1", "accepted", [⟨"v1", "accepted"⟩]⟩).n_accepted =
        (⟨[], [], [], []⟩ : BuildState).n_accepted ∧
      (processResource ⟨[], [("v1", ContentFile.dict ⟨some "model", "A"⟩)], []⟩
          ⟨[], [], [], []⟩
          ⟨"r1", "accepted", [⟨"v1", "accepted"⟩]⟩).n_accepted_versions =
        (⟨[], [], [], []⟩ : BuildState).n_accepted_versions) :=
  c9_frame ⟨[], [("v1", ContentFile.dict ⟨some "model", "A"⟩)], []⟩
    ⟨[], [], [], []⟩ ⟨"r1", "accepted", [⟨"v1", "accepted"⟩]⟩
    ⟨⟨some "model", "A"⟩, "r1", []⟩ [] rfl (by decide)

/-! ### JSON projection (`convert_for_json` and `json.dump(...,
allow_nan=False)`, src/scripts/generate_collection_rdf.py, lines 136-151)

Python floats are modeled by their mathematical value plus the three
non-finite points; `pyEq` is IEEE `==`, under which `nan` compares unequal
to everything including itself — which is why `float("nan") == v` never
fires in `convert_for_json` and NaN values reach `json.dump`.  A document
is a tree of numbers, strings, datetimes (carrying their `isoformat`
rendering), arrays and objects; `boltons.remap` visits every value. -/

/-- A Python float: a finite value, or one of the non-finite points. -/
inductive PFloat
  | fin (q : Int)
  | inf
  | ninf
  | nan
deriving DecidableEq

/-- Python float `==` (IEEE equality): `nan` is unequal to everything,
including itself. -/
def pyEq : PFloat → PFloat → Bool
  | .fin a, .fin b => a == b
  | .inf, .inf => true
  | .ninf, .ninf => true
  | _, _ => false

mutual
/-- A value of the document tree handed to the JSON projection. -/
inductive JVal
  | jnum (x : PFloat)
  | jstr (s : String)
  | jdt (iso : String)
  | jarr (xs : JArr)
  | jobj (fields : JObj)
/-- A JSON array (list of values). -/
inductive JArr
  | anil
  | acons (v : JVal) (rest : JArr)
/-- A JSON object (ordered key/value fields). -/
inductive JObj
  | onil
  | ocons (k : String) (v : JVal) (rest : JObj)
end

mutual
/-- `remap(rdf, convert_for_json)`: every value equal (under Python `==`)
to `float("-inf")`, `float("inf")`, `float("nan")` — tested in that order —
becomes the corresponding literal string token; datetimes become their
ISO-8601 strings; everything else is kept and containers are traversed. -/
def convert : JVal → JVal
  | .jnum x =>
    if pyEq x .ninf then .jstr "-inf"
    else if pyEq x .inf then .jstr "inf"
    else if pyEq x .nan then .jstr "nan"
    else .jnum x
  | .jstr s => .jstr s
  | .jdt iso => .jstr iso
  | .jarr xs => .jarr (convertArr xs)
  | .jobj kvs => .jobj (convertObj kvs)

/-- `convert` on each array element. -/
def convertArr : JArr → JArr
  | .anil => .anil
  | .acons v rest => .acons (convert v) (convertArr rest)

/-- `convert` on each object value (keys are untouched). -/
def convertObj : JObj → JObj
  | .onil => .onil
  | .ocons k v rest => .ocons k (convert v) (convertObj rest)
end

mutual
/-- Whether the tree still holds a non-finite float — exactly the
condition under which `json.dump(..., allow_nan=False)` raises. -/
def hasBadFloat : JVal → Bool
  | .jnum (.fin _) => false
  | .jnum .inf => true
  | .jnum .ninf => true
  | .jnum .nan => true
  | .jstr _ => false
  | .jdt _ => false
  | .jarr xs => hasBadFloatArr xs
  | .jobj kvs => hasBadFloatObj kvs

/-- Array case of `hasBadFloat`. -/
def hasBadFloatArr : JArr → Bool
  | .anil => false
  | .acons v rest => hasBadFloat v || hasBadFloatArr rest

/-- Object case of `hasBadFloat`. -/
def hasBadFloatObj : JObj → Bool
  | .onil => false
  | .ocons _ v rest => hasBadFloat v || hasBadFloatObj rest
end

/-- `json.dump(rdf, f, allow_nan=False)` succeeds iff no non-finite float
remains. -/
def serializeOk (v : JVal) : Bool := !(hasBadFloat v)

mutual
/-- Whether the tree holds a NaN value. -/
def hasNan : JVal → Bool
  | .jnum .nan => true
  | .jnum _ => false
  | .jstr _ => false
  | .jdt _ => false
  | .jarr xs => hasNanArr xs
  | .jobj kvs => hasNanObj kvs

/-- Array case of `hasNan`. -/
def hasNanArr : JArr → Bool
  | .anil => false
  | .acons v rest => hasNan v || hasNanArr rest

/-- Object case of `hasNan`. -/
def hasNanObj : JObj → Bool
  | .onil => false
  | .ocons _ v rest => hasNan v || hasNanObj rest
end

mutual
/-- Whether the tree holds a datetime value. -/
def hasDatetime : JVal → Bool
  | .jnum _ => false
  | .jstr _ => false
  | .jdt _ => true
  | .jarr xs => hasDatetimeArr xs
  | .jobj kvs => hasDatetimeObj kvs

/-- Array case of `hasDatetime`. -/
def hasDatetimeArr : JArr → Bool
  | .anil => false
  | .acons v rest => hasDatetime v || hasDatetimeArr rest

/-- Object case of `hasDatetime`. -/
def hasDatetimeObj : JObj → Bool
  | .onil => false
  | .ocons _ v rest => hasDatetime v || hasDatetimeObj rest
end

mutual
theorem hasBadFloat_convert : ∀ v : JVal, hasBadFloat (convert v) = hasNan v
  | .jnum (.fin _) => rfl
  | .jnum .inf => rfl
  | .jnum .ninf => rfl
  | .jnum .nan => rfl
  | .jstr _ => rfl
  | .jdt _ => rfl
  | .jarr xs => hasBadFloatArr_convert xs
  | .jobj kvs => hasBadFloatObj_convert kvs

theorem hasBadFloatArr_convert :
    ∀ xs : JArr, hasBadFloatArr (convertArr xs) = hasNanArr xs
  | .anil => rfl
  | .acons v rest => by
    rw [convertArr, hasBadFloatArr, hasNanArr, hasBadFloat_convert v,
      hasBadFloatArr_convert rest]

theorem hasBadFloatObj_convert :
    ∀ kvs : JObj, hasBadFloatObj (convertObj kvs) = hasNanObj kvs
  | .onil => rfl
  | .ocons k v rest => by
    rw [convertObj, hasBadFloatObj, hasNanObj, hasBadFloat_convert v,
      hasBadFloatObj_convert rest]
end

mutual
theorem hasDatetime_convert : ∀ v : JVal, hasDatetime (convert v) = false
  | .jnum x => by cases x <;> rfl
  | .jstr _ => rfl
  | .jdt _ => rfl
  | .jarr xs => hasDatetimeArr_convert xs
  | .jobj kvs => hasDatetimeObj_convert kvs

theorem hasDatetimeArr_convert :
    ∀ xs : JArr, hasDatetimeArr (convertArr xs) = false
  | .anil => rfl
  | .acons v rest => by
    rw [convertArr, hasDatetimeArr, hasDatetime_convert v,
      hasDatetimeArr_convert rest]
    rfl

theorem hasDatetimeObj_convert :
    ∀ kvs : JObj, hasDatetimeObj (convertObj kvs) = false
  | .onil => rfl
  | .ocons k v rest => by
    rw [convertObj, hasDatetimeObj, hasDatetime_convert v,
      hasDatetimeObj_convert rest]
    rfl
end

/-- C7: the JSON projection replaces every floating value that compares
equal to `+inf` / `-inf` / `NaN` with the literal tokens `"inf"` /
`"-inf"` / `"nan"` respectively (under Python `==`, *no* value compares
equal to NaN, so the NaN clause never fires), renders every datetime as
its ISO-8601 string, and the subsequent strict serialization fails exactly
when a non-finite value remains — i.e. exactly when the document held a
NaN; in particular `+inf` round-trips to `"inf"` and serializing a NaN
fails. -/
theorem c7_json_projection :
    (∀ x : PFloat, pyEq x .inf = true → convert (.jnum x) = .jstr "inf") ∧
    (∀ x : PFloat, pyEq x .ninf = true → convert (.jnum x) = .jstr "-inf") ∧
    (∀ x : PFloat, pyEq x .nan = true → convert (.jnum x) = .jstr "nan") ∧
    (∀ x : PFloat, pyEq x .nan = false) ∧
    (∀ iso : String, convert (.jdt iso) = .jstr iso) ∧
    (∀ v : JVal, hasDatetime (convert v) = false) ∧
    (∀ v : JVal, serializeOk (convert v) = !(hasNan v)) ∧
    convert (.jnum .inf) = .jstr "inf" ∧
    serializeOk (convert (.jnum .nan)) = false := by
  have hnan : ∀ x : PFloat, pyEq x .nan = false := by
    intro x; cases x <;> rfl
  refine ⟨?_, ?_, ?_, hnan, ?_, hasDatetime_convert, ?_, rfl, rfl⟩
  · intro x hx
    cases x <;> first | rfl | cases hx
  · intro x hx
    cases x <;> first | rfl | cases hx
  · intro x hx
    rw [hnan x] at hx
    cases hx
  · intro iso; rfl
  · intro v
    rw [serializeOk, hasBadFloat_convert v]

/-- C7 witness. -/
theorem c7_witness :
    convert (.jnum .inf) = .jstr "inf" ∧
      convert (.jnum .ninf) = .jstr "-inf" ∧
      serializeOk (convert (.jnum .nan)) = false :=
  ⟨c7_json_projection.1 .inf rfl, c7_json_projection.2.1 .ninf rfl,
    c7_json_projection.2.2.2.2.2.2.2.2⟩

end BioCollection
